import Mathlib

/-!
Verification development for the invoice-extraction pipeline in
`extract_invoices_deepseek.py`.

Strings are modelled as `List Char`; dictionaries (JSON invoice records) as
association lists with Python `dict.get` semantics; external capabilities
(the OCR / embedded-text render engines, the DeepSeek completion endpoint
and the stdlib JSON parser) are modelled as explicit function parameters,
since they are third-party collaborators, not code of this repository.
The completion transport has two models: a total one (`requests.post`
returns a response object) and an `Except` one in which the post call may
also raise an uncaught transport exception, as the source allows.
-/

namespace InvoiceExtractor

/-- The joiner inserted between pages inside a chunk, mirroring the
f-string `"\n===== Page =====\n"` in `split_text_into_chunks`. -/
def pageMarker : List Char := "\n===== Page =====\n".toList

/-- Literal part of the page-boundary regex before the digits:
`===== Page `. -/
def markerPre : List Char := "===== Page ".toList

/-- Literal part of the page-boundary regex after the digits: ` =====`. -/
def markerPost : List Char := " =====".toList

/-- Try to strip one occurrence of the regex `===== Page \d+ =====` from the
start of `s`, returning the remainder after the match.  The greedy `\d+`
is the maximal digit run (backtracking cannot help, since the character
after a shorter digit run would have to be both a digit and a space). -/
def dropMarker (s : List Char) : Option (List Char) :=
  if markerPre.isPrefixOf s then
    let t := s.drop markerPre.length
    let d := t.takeWhile Char.isDigit
    let r := t.dropWhile Char.isDigit
    if d.isEmpty then none
    else if markerPost.isPrefixOf r then some (r.drop markerPost.length)
    else none
  else none

/-- Leftmost-match scan implementing `re.split(r'===== Page \d+ =====', text)`.
`fuel` is an upper bound on the number of characters still to scan; every
step consumes at least one character, so with `fuel = s.length` the
fuel-exhausted branch is never reached. -/
def splitPagesGo : Nat → List Char → List Char → List (List Char)
  | 0, s, acc => [acc.reverse ++ s]
  | fuel + 1, s, acc =>
    match s with
    | [] => [acc.reverse]
    | c :: rest =>
      match dropMarker (c :: rest) with
      | some rem => acc.reverse :: splitPagesGo fuel rem []
      | none => splitPagesGo fuel rest (c :: acc)

/-- `re.split(r'===== Page \d+ =====', text)` from line 68 of the source. -/
def splitPages (s : List Char) : List (List Char) :=
  splitPagesGo s.length s []

/-- Line 69: `pages = [page for page in pages if page.strip()]` — keep a
block iff it contains a non-whitespace character. -/
def pagesOf (text : List Char) : List (List Char) :=
  (splitPages text).filter (fun page => !(page.all Char.isWhitespace))

/-- The `for page in pages` loop of `split_text_into_chunks` (lines 71-82):
greedy packing with the final `if current_chunk: chunks.append(...)` flush. -/
def chunkLoop (maxChars : Nat) : List (List Char) → List Char → List (List Char)
  | [], current_chunk => if current_chunk.isEmpty then [] else [current_chunk]
  | page :: pages, current_chunk =>
    if maxChars < current_chunk.length + page.length then
      current_chunk :: chunkLoop maxChars pages page
    else
      chunkLoop maxChars pages (current_chunk ++ pageMarker ++ page)

/-- `split_text_into_chunks(text, max_tokens)` (lines 62-84), with
`max_chars = max_tokens * 4`. -/
def split_text_into_chunks (text : List Char) (max_tokens : Nat) : List (List Char) :=
  chunkLoop (max_tokens * 4) (pagesOf text) []

/-- Instrumented copy of `chunkLoop` that also records, for each emitted
chunk, the list of page blocks it was built from.  Identical branch
structure; the first projection recomputes `chunkLoop` exactly. -/
def chunkLoopP (maxChars : Nat) :
    List (List Char) → List Char → List (List Char) → List (List Char × List (List Char))
  | [], current_chunk, curPages =>
    if current_chunk.isEmpty then [] else [(current_chunk, curPages)]
  | page :: pages, current_chunk, curPages =>
    if maxChars < current_chunk.length + page.length then
      (current_chunk, curPages) :: chunkLoopP maxChars pages page [page]
    else
      chunkLoopP maxChars pages (current_chunk ++ pageMarker ++ page) (curPages ++ [page])

/-- `split_text_into_chunks` paired with each chunk's underlying pages. -/
def splitChunksWithPages (text : List Char) (max_tokens : Nat) :
    List (List Char × List (List Char)) :=
  chunkLoopP (max_tokens * 4) (pagesOf text) [] []

/-- The header `f"===== Page {n} =====\n"` emitted by the text extractors. -/
def pageHeaderLine (n : Nat) : List Char :=
  "===== Page ".toList ++ (Nat.repr n).toList ++ " =====\n".toList

/-- The page loop shared by `extract_text_from_pdf`, `extract_text_from_pdf1`
and `extract_text_from_pdf_fitz`: for the page at zero-based index `i`,
append `f"===== Page {i + 1} =====\n"` then the page text then `"\n\n"`. -/
def extractTextGo : List (List Char) → Nat → List Char
  | [], _ => []
  | t :: rest, i => pageHeaderLine (i + 1) ++ t ++ "\n\n".toList ++ extractTextGo rest (i + 1)

/-- `extract_text_from_pdf(pdf_content)` (lines 35-47; `extract_text_from_pdf1`
at lines 49-60 and the fitz variant at 26-33 have the same loop), with the
external render engine modelled as the per-page texts it returns; a page the
engine cannot read yields the empty string, never null. -/
def extract_text_from_pdf (pageTexts : List (List Char)) : List Char :=
  extractTextGo pageTexts 0

/-- The completion endpoint's reply: `requests.post` result, reduced to the
fields the source reads (`status_code` and the message content). -/
structure ApiResponse where
  status_code : Nat
  content : List Char

/-- A parsed invoice record: a JSON object modelled as an association list
of string fields, read with `dict.get` semantics. -/
abbrev InvRecord := List (String × String)

/-- Python `dict.get(key, default)` on the association-list record model. -/
def pyGet (r : InvRecord) (key default : String) : String :=
  match r.find? (fun kv => kv.1 == key) with
  | some kv => kv.2
  | none => default

/-- Python `str.find(c)`: index of the first occurrence, or `-1`. -/
def pyFind (s : List Char) (c : Char) : Int :=
  match s.findIdx? (fun x => x == c) with
  | some i => (i : Int)
  | none => -1

/-- Python `str.rfind(c)`: index of the last occurrence, or `-1`. -/
def pyRfind (s : List Char) (c : Char) : Int :=
  match s.reverse.findIdx? (fun x => x == c) with
  | some i => ((s.length - 1 - i : Nat) : Int)
  | none => -1

/-- Python slice `s[a:b]` for the non-negative indices the source produces. -/
def pySlice (s : List Char) (a b : Int) : List Char :=
  (s.take b.toNat).drop a.toNat

/-- The substring `content[content.find('[') : content.rfind(']') + 1]`
that `extract_invoice_data_from_chunk` hands to `json.loads`. -/
def jsonSlice (content : List Char) : List Char :=
  pySlice content (pyFind content '[') (pyRfind content ']' + 1)

/-- `extract_invoice_data_from_chunk(text_chunk)` (lines 86-166).
`complete` is the DeepSeek endpoint (the response to posting the payload
built from the chunk); `parseJsonArray` is stdlib `json.loads`, returning
`none` exactly when it raises `JSONDecodeError`/`ValueError`. -/
def extract_invoice_data_from_chunk (complete : List Char → ApiResponse)
    (parseJsonArray : List Char → Option (List InvRecord))
    (text_chunk : List Char) : List InvRecord :=
  let response := complete text_chunk
  if response.status_code == 200 then
    let content := response.content
    let json_start := pyFind content '['
    let json_end := pyRfind content ']' + 1
    if json_start == -1 || json_end == 0 then []
    else
      match parseJsonArray (pySlice content json_start json_end) with
      | some invoice_data => invoice_data
      | none => []
  else []

def vendorNameKey : String := "Vendor Name"

def invoiceNumberKey : String := "Invoice Number"

def emptyStr : String := ""

def dashStr : String := "-"

/-- `invoice_id = f"{invoice.get('Vendor Name', '')}-{invoice.get('Invoice Number', '')}"`
(line 222). -/
def invoice_id (invoice : InvRecord) : String :=
  pyGet invoice vendorNameKey emptyStr ++ dashStr ++ pyGet invoice invoiceNumberKey emptyStr

/-- The dedup loop of `extract_invoice_data` (lines 220-224): an
insertion-ordered dict keyed by `invoice_id`, first write wins. -/
def dedupLoop : List InvRecord → List (String × InvRecord) → List (String × InvRecord)
  | [], unique_invoices => unique_invoices
  | invoice :: rest, unique_invoices =>
    if unique_invoices.any (fun kv => kv.1 == invoice_id invoice) then
      dedupLoop rest unique_invoices
    else
      dedupLoop rest (unique_invoices ++ [(invoice_id invoice, invoice)])

/-- `list(unique_invoices.values())` after running the dedup loop. -/
def dedupInvoices (all_invoices : List InvRecord) : List InvRecord :=
  (dedupLoop all_invoices []).map Prod.snd

/-- Spec-side characterization of the aggregator (spec section 4.4, written
from the spec's words): keep the first-seen record, discard every later
record with the same identity, recurse on the remainder. -/
def firstSeenDedup : List InvRecord → List InvRecord
  | [] => []
  | r :: rest =>
    r :: firstSeenDedup (rest.filter (fun s => !(invoice_id s == invoice_id r)))
termination_by l => l.length
decreasing_by
  simp only [List.length_cons]
  exact Nat.lt_succ_of_le (List.length_filter_le _ rest)

/-- `extract_invoice_data(pdf_content)` (lines 204-226): the pipeline from
rendered page texts through chunking, per-chunk extraction (default
`max_tokens = 100000`) and deduplication. -/
def extract_invoice_data (complete : List Char → ApiResponse)
    (parseJsonArray : List Char → Option (List InvRecord))
    (pageTexts : List (List Char)) : List InvRecord :=
  let text := extract_text_from_pdf pageTexts
  let chunks := split_text_into_chunks text 100000
  let all_invoices :=
    (chunks.map (extract_invoice_data_from_chunk complete parseJsonArray)).flatten
  dedupInvoices all_invoices

/-- Greedy-packing bookkeeping: starting from a chunk of length `acc`, each
listed page fit under the budget when it was appended, and appending it
grew the chunk by the page joiner plus the page. -/
def packedFrom (maxChars : Nat) : Nat → List (List Char) → Prop
  | _, [] => True
  | acc, p :: rest =>
    acc + p.length ≤ maxChars ∧ packedFrom maxChars (acc + pageMarker.length + p.length) rest

/-- A chunk that was opened by an overflowing page: its page group starts
with that bare page, and every later page of the group fit greedily. -/
def laterPacked (maxChars : Nat) (cg : List Char × List (List Char)) : Prop :=
  ∃ p gs, cg.2 = p :: gs ∧ packedFrom maxChars p.length gs

/-- Output-wide greedy-packing invariant for the instrumented chunker. -/
def packedOutput (maxChars acc : Nat) (curPages : List (List Char)) :
    List (List Char × List (List Char)) → Prop
  | [] => True
  | (_, g) :: rest =>
    (∃ extra, g = curPages ++ extra ∧ packedFrom maxChars acc extra) ∧
      ∀ x ∈ rest, laterPacked maxChars x

/-- Every chunk boundary is justified: consecutive chunks `c, c2` satisfy
that the first page `p` of `c2`'s group overflowed `c`'s budget, and `c2`
begins with `p`. -/
def boundaryOk (maxChars : Nat) : List (List Char × List (List Char)) → Prop
  | [] => True
  | [_] => True
  | (c, _g) :: (c2, g2) :: rest =>
    (∃ p gs, g2 = p :: gs ∧ maxChars < c.length + p.length ∧ p <+: c2) ∧
      boundaryOk maxChars ((c2, g2) :: rest)

/-- A one-page example document: the page-1 boundary marker followed by the
block holding the letter A. -/
def exBlockA : List Char := '\n' :: 'A' :: '\n' :: '\n' :: []

/-- Rendered one-page document used as a concrete witness input. -/
def exDocA : List Char := markerPre ++ ('1' :: []) ++ markerPost ++ exBlockA

/-- A 41-character page body, longer than the 40-character budget alone. -/
def aRun : List Char := List.replicate 41 'a'

/-- A second 41-character page body. -/
def bRun : List Char := List.replicate 41 'b'

/-- Two-page document whose pages each exceed the 40-character budget on
their own. -/
def twoBigPagesDoc : List Char :=
  markerPre ++ ('1' :: []) ++ markerPost ++ aRun
    ++ markerPre ++ ('2' :: []) ++ markerPost ++ bRun

/-- A 30-character page body: over budget once marked, under budget bare. -/
def aRun30 : List Char := List.replicate 30 'a'

/-- A second 30-character page body. -/
def bRun30 : List Char := List.replicate 30 'b'

/-- Two-page document whose pages exceed the 40-character budget only
together with their markers. -/
def twoMidPagesDoc : List Char :=
  markerPre ++ ('1' :: []) ++ markerPost ++ aRun30
    ++ markerPre ++ ('2' :: []) ++ markerPost ++ bRun30

/-- Completion stub that always answers HTTP 404 with empty content. -/
def failComplete : List Char → ApiResponse := fun _ => ApiResponse.mk 404 []

/-- Completion stub that always answers HTTP 500 with empty content. -/
def errComplete : List Char → ApiResponse := fun _ => ApiResponse.mk 500 []

/-- Parser stub on which `json.loads` always fails. -/
def noParse : List Char → Option (List InvRecord) := fun _ => none

def dueDateKey : String := "Due Date"

def vStr : String := "V"

def oneStr : String := "1"

def xStr : String := "x"

/-- A record with vendor V and invoice number 1. -/
def recA : InvRecord := [(vendorNameKey, vStr), (invoiceNumberKey, oneStr)]

/-- A record with the same identity as `recA` but an extra field. -/
def recB : InvRecord :=
  [(vendorNameKey, vStr), (invoiceNumberKey, oneStr), (dueDateKey, xStr)]

def vendorA1 : String := "A-1"

def vendorA : String := "A"

def numTwo : String := "2"

def numOneTwo : String := "1-2"

/-- Vendor `A-1`, invoice number `2`: dedup key `A-1-2`. -/
def recX : InvRecord := [(vendorNameKey, vendorA1), (invoiceNumberKey, numTwo)]

/-- Vendor `A`, invoice number `1-2`: the same dedup key `A-1-2`. -/
def recY : InvRecord := [(vendorNameKey, vendorA), (invoiceNumberKey, numOneTwo)]

def miscKey : String := "Total Amount"

def fiveStr : String := "5"

/-- A record carrying neither a vendor name nor an invoice number. -/
def recNoKeys : InvRecord := [(miscKey, fiveStr)]

/-- One rendered page holding the letter A. -/
def onePageA : List (List Char) := [('A' :: [] : List Char)]

/-- Two rendered pages, the first of which came back empty. -/
def twoPageEmptyFirst : List (List Char) := [([] : List Char), 'A' :: []]

/-- A transport-level exception raised by `requests.post` at line 139
(`ConnectionError`, `Timeout`, ...).  The try/except at lines 146-162
catches only `json.JSONDecodeError` and `ValueError`, so such an exception
propagates out of `extract_invoice_data_from_chunk` uncaught. -/
structure TransportError where
  msg : List Char

/-- `extract_invoice_data_from_chunk` (lines 86-166) with the transport's
failure mode made explicit: `completeE` either returns the response object
`requests.post` produced or raises, and no handler inside the function
catches the raise, so it propagates; a returned response is handled
exactly as at lines 141-166. -/
def extract_invoice_data_from_chunkE
    (completeE : List Char → Except TransportError ApiResponse)
    (parseJsonArray : List Char → Option (List InvRecord))
    (text_chunk : List Char) : Except TransportError (List InvRecord) :=
  match completeE text_chunk with
  | Except.error e => Except.error e
  | Except.ok response =>
    if response.status_code == 200 then
      let content := response.content
      let json_start := pyFind content '['
      let json_end := pyRfind content ']' + 1
      if json_start == -1 || json_end == 0 then Except.ok []
      else
        match parseJsonArray (pySlice content json_start json_end) with
        | some invoice_data => Except.ok invoice_data
        | none => Except.ok []
    else Except.ok []

/-- The `for i, chunk in enumerate(chunks)` loop of lines 213-217 with the
transport failure mode explicit: the first uncaught exception aborts the
loop, and every record accumulated in `all_invoices` so far is lost with
the local variable when the method exits via the exception. -/
def processChunksE (completeE : List Char → Except TransportError ApiResponse)
    (parseJsonArray : List Char → Option (List InvRecord)) :
    List (List Char) → Except TransportError (List InvRecord)
  | [] => Except.ok []
  | chunk :: rest =>
    match extract_invoice_data_from_chunkE completeE parseJsonArray chunk with
    | Except.error e => Except.error e
    | Except.ok chunk_invoices =>
      match processChunksE completeE parseJsonArray rest with
      | Except.error e => Except.error e
      | Except.ok later => Except.ok (chunk_invoices ++ later)

/-- `extract_invoice_data` (lines 204-226) with the transport failure mode
explicit: an uncaught exception from any chunk propagates out of the
method before the dedup step runs. -/
def extract_invoice_dataE (completeE : List Char → Except TransportError ApiResponse)
    (parseJsonArray : List Char → Option (List InvRecord))
    (pageTexts : List (List Char)) : Except TransportError (List InvRecord) :=
  let text := extract_text_from_pdf pageTexts
  let chunks := split_text_into_chunks text 100000
  match processChunksE completeE parseJsonArray chunks with
  | Except.error e => Except.error e
  | Except.ok all_invoices => Except.ok (dedupInvoices all_invoices)

def netErrMsg : List Char := "ConnectionError".toList

/-- A concrete network error. -/
def netErr : TransportError := TransportError.mk netErrMsg

/-- Transport on which every request raises. -/
def raiseComplete : List Char → Except TransportError ApiResponse :=
  fun _ => Except.error netErr

def goodChunk : List Char := 'g' :: []

def badChunk : List Char := 'b' :: []

/-- A 200 response whose content is the empty JSON array text. -/
def okResp : ApiResponse := ApiResponse.mk 200 ('[' :: ']' :: [])

/-- Transport that answers `goodChunk` successfully and raises a network
error on any other chunk. -/
def mixedComplete : List Char → Except TransportError ApiResponse :=
  fun c => if c = goodChunk then Except.ok okResp else Except.error netErr

/-- Parser capability that extracts the single record `recA`. -/
def oneRecParse : List Char → Option (List InvRecord) :=
  fun _ => some [recA]

/-- `errComplete` lifted to the raising-transport model: it always returns
its (500) response and never raises. -/
def errCompleteE : List Char → Except TransportError ApiResponse :=
  fun c => Except.ok (errComplete c)

theorem chunkLoopP_fst (m : Nat) :
    ∀ (ps : List (List Char)) (cur : List Char) (curG : List (List Char)),
      (chunkLoopP m ps cur curG).map Prod.fst = chunkLoop m ps cur := by
  intro ps
  induction ps with
  | nil =>
    intro cur curG
    by_cases h : cur.isEmpty <;> simp [chunkLoopP, chunkLoop, h]
  | cons p ps ih =>
    intro cur curG
    by_cases h : m < cur.length + p.length
    · simp only [chunkLoopP, chunkLoop, if_pos h, List.map_cons, ih]
    · simp only [chunkLoopP, chunkLoop, if_neg h, ih]

theorem pagesOf_ne_nil (text : List Char) : ∀ p ∈ pagesOf text, p ≠ [] := by
  intro p hp
  simp only [pagesOf, List.mem_filter] at hp
  intro h
  subst h
  simp at hp

theorem chunkLoopP_flatten (m : Nat) :
    ∀ (ps : List (List Char)) (cur : List Char) (curG : List (List Char)),
      (∀ p ∈ ps, p ≠ []) → (cur = [] → curG = []) →
      ((chunkLoopP m ps cur curG).map Prod.snd).flatten = curG ++ ps := by
  intro ps
  induction ps with
  | nil =>
    intro cur curG _ hcur
    by_cases h : cur.isEmpty
    · have hc : cur = [] := by simpa using h
      simp [chunkLoopP, h, hcur hc]
    · simp [chunkLoopP, h]
  | cons p ps ih =>
    intro cur curG hne hcur
    have hps : ∀ q ∈ ps, q ≠ [] := fun q hq => hne q (List.mem_cons_of_mem _ hq)
    have hpne : p ≠ [] := hne p (List.mem_cons_self _ _)
    by_cases h : m < cur.length + p.length
    · simp only [chunkLoopP, if_pos h, List.map_cons, List.flatten_cons]
      rw [ih p [p] hps (fun hp => absurd hp hpne)]
      simp
    · simp only [chunkLoopP, if_neg h]
      rw [ih (cur ++ pageMarker ++ p) (curG ++ [p]) hps ?_]
      · simp
      · intro hcontra
        have hlen := congrArg List.length hcontra
        have hm : pageMarker.length = 18 := by decide
        simp only [List.length_append, List.length_nil] at hlen
        omega

theorem chunkLoopP_infix (m : Nat) :
    ∀ (ps : List (List Char)) (cur : List Char) (curG : List (List Char)),
      (∀ p ∈ curG, p <:+: cur) →
      ∀ cg ∈ chunkLoopP m ps cur curG, ∀ p ∈ cg.2, p <:+: cg.1 := by
  intro ps
  induction ps with
  | nil =>
    intro cur curG hG cg hcg p hp
    by_cases h : cur.isEmpty
    · simp [chunkLoopP, h] at hcg
    · simp only [chunkLoopP, h] at hcg
      simp at hcg
      subst hcg
      exact hG p hp
  | cons q ps ih =>
    intro cur curG hG cg hcg p hp
    by_cases h : m < cur.length + q.length
    · simp only [chunkLoopP, if_pos h] at hcg
      rcases List.mem_cons.1 hcg with hcg | hcg
      · subst hcg; exact hG p hp
      · refine ih q [q] ?_ cg hcg p hp
        intro x hx
        have hxq : x = q := by simpa using hx
        subst hxq
        exact ⟨[], [], by simp⟩
    · simp only [chunkLoopP, if_neg h] at hcg
      refine ih (cur ++ pageMarker ++ q) (curG ++ [q]) ?_ cg hcg p hp
      intro x hx
      rcases List.mem_append.1 hx with hx | hx
      · obtain ⟨s, t, hst⟩ := hG x hx
        exact ⟨s, t ++ pageMarker ++ q, by rw [← hst]; simp⟩
      · have hxq : x = q := by simpa using hx
        subst hxq
        exact ⟨cur ++ pageMarker, [], by simp⟩

theorem isPrefix_trans {α : Type _} {a b c : List α} (h1 : a <+: b) (h2 : b <+: c) :
    a <+: c := by
  obtain ⟨u, rfl⟩ := h1
  obtain ⟨v, rfl⟩ := h2
  exact ⟨u ++ v, by simp⟩

theorem chunkLoopP_head (m : Nat) :
    ∀ (ps : List (List Char)) (cur : List Char) (curG : List (List Char))
      (c : List Char) (g : List (List Char)) (rest : List (List Char × List (List Char))),
      chunkLoopP m ps cur curG = (c, g) :: rest → cur <+: c ∧ curG <+: g := by
  intro ps
  induction ps with
  | nil =>
    intro cur curG c g rest heq
    by_cases h : cur.isEmpty
    · simp [chunkLoopP, h] at heq
    · simp only [chunkLoopP] at heq
      rw [if_neg h] at heq
      injection heq with h1 h2
      injection h1 with hc hg
      subst hc; subst hg
      exact ⟨⟨[], by simp⟩, ⟨[], by simp⟩⟩
  | cons q ps ih =>
    intro cur curG c g rest heq
    by_cases h : m < cur.length + q.length
    · simp only [chunkLoopP, if_pos h] at heq
      injection heq with h1 h2
      injection h1 with hc hg
      subst hc; subst hg
      exact ⟨⟨[], by simp⟩, ⟨[], by simp⟩⟩
    · simp only [chunkLoopP, if_neg h] at heq
      obtain ⟨hpre, hpreG⟩ := ih (cur ++ pageMarker ++ q) (curG ++ [q]) c g rest heq
      exact ⟨isPrefix_trans ⟨pageMarker ++ q, by simp⟩ hpre,
             isPrefix_trans ⟨[q], rfl⟩ hpreG⟩

theorem chunkLoopP_boundary (m : Nat) :
    ∀ (ps : List (List Char)) (cur : List Char) (curG : List (List Char)),
      boundaryOk m (chunkLoopP m ps cur curG) := by
  intro ps
  induction ps with
  | nil =>
    intro cur curG
    by_cases h : cur.isEmpty <;> simp [chunkLoopP, h, boundaryOk]
  | cons p ps ih =>
    intro cur curG
    by_cases h : m < cur.length + p.length
    · simp only [chunkLoopP, if_pos h]
      rcases hrec : chunkLoopP m ps p [p] with _ | ⟨⟨c2, g2⟩, rest⟩
      · simp [boundaryOk]
      · obtain ⟨hpc, hpg⟩ := chunkLoopP_head m ps p [p] c2 g2 rest hrec
        obtain ⟨gs, hg2⟩ := hpg
        have hb := ih p [p]
        rw [hrec] at hb
        exact ⟨⟨p, gs, hg2.symm, h, hpc⟩, hb⟩
    · simp only [chunkLoopP, if_neg h]
      exact ih _ _

theorem chunkLoopP_packed (m : Nat) :
    ∀ (ps : List (List Char)) (cur : List Char) (curG : List (List Char)),
      packedOutput m cur.length curG (chunkLoopP m ps cur curG) := by
  intro ps
  induction ps with
  | nil =>
    intro cur curG
    by_cases h : cur.isEmpty
    · simp [chunkLoopP, h, packedOutput]
    · simp only [chunkLoopP]
      rw [if_neg h]
      exact ⟨⟨[], by simp, trivial⟩, by simp⟩
  | cons p ps ih =>
    intro cur curG
    by_cases h : m < cur.length + p.length
    · simp only [chunkLoopP, if_pos h]
      refine ⟨⟨[], by simp, trivial⟩, ?_⟩
      intro x hx
      have hrec := ih p [p]
      rcases hmatch : chunkLoopP m ps p [p] with _ | ⟨⟨c2, g2⟩, rest⟩
      · rw [hmatch] at hx; simp at hx
      · rw [hmatch] at hx hrec
        obtain ⟨⟨extra, hg2, hpk⟩, hrest⟩ := hrec
        rcases List.mem_cons.1 hx with hx | hx
        · subst hx
          exact ⟨p, extra, by rw [hg2]; rfl, hpk⟩
        · exact hrest x hx
    · simp only [chunkLoopP, if_neg h]
      rcases hmatch : chunkLoopP m ps (cur ++ pageMarker ++ p) (curG ++ [p])
          with _ | ⟨⟨c2, g2⟩, rest⟩
      · trivial
      · have hrec := ih (cur ++ pageMarker ++ p) (curG ++ [p])
        rw [hmatch] at hrec
        obtain ⟨⟨extra, hg2, hpk⟩, hrest⟩ := hrec
        refine ⟨⟨p :: extra, by rw [hg2]; simp, ?_, ?_⟩, hrest⟩
        · exact Nat.le_of_not_lt h
        · have hlen : (cur ++ pageMarker ++ p).length
              = cur.length + pageMarker.length + p.length := by
            simp only [List.length_append]
          rw [hlen] at hpk
          exact hpk

theorem chunkLoopP_oversized (m : Nat) :
    ∀ (ps : List (List Char)) (cur : List Char) (curG : List (List Char)) (p : List Char),
      p ∈ ps → m < p.length → (p, [p]) ∈ chunkLoopP m ps cur curG := by
  intro ps
  induction ps with
  | nil =>
    intro cur curG p hp
    simp at hp
  | cons q ps ih =>
    intro cur curG p hp hbig
    rcases List.mem_cons.1 hp with hpq | hpq
    · subst hpq
      have hover : m < cur.length + p.length := by omega
      simp only [chunkLoopP, if_pos hover]
      apply List.mem_cons_of_mem
      cases ps with
      | nil =>
        have hne : ¬ p.isEmpty = true := by
          cases p with
          | nil => simp at hbig
          | cons a l => simp
        simp only [chunkLoopP]
        rw [if_neg hne]
        exact List.mem_singleton.2 rfl
      | cons r rs =>
        have hover2 : m < p.length + r.length := by omega
        simp only [chunkLoopP, if_pos hover2]
        exact List.mem_cons_self _ _
    · by_cases hover : m < cur.length + q.length
      · simp only [chunkLoopP, if_pos hover]
        exact List.mem_cons_of_mem _ (ih _ _ p hpq hbig)
      · simp only [chunkLoopP, if_neg hover]
        exact ih _ _ p hpq hbig

theorem chunkLoop_length_le (m : Nat) :
    ∀ (ps : List (List Char)) (cur : List Char),
      (chunkLoop m ps cur).length ≤ ps.length + 1 := by
  intro ps
  induction ps with
  | nil =>
    intro cur
    by_cases h : cur.isEmpty <;> simp [chunkLoop, h]
  | cons p ps ih =>
    intro cur
    by_cases h : m < cur.length + p.length
    · simp only [chunkLoop, if_pos h, List.length_cons]
      have := ih p
      omega
    · simp only [chunkLoop, if_neg h, List.length_cons]
      have := ih (cur ++ pageMarker ++ p)
      omega

theorem dedupLoop_characterization :
    ∀ (l : List InvRecord) (acc : List (String × InvRecord)),
      (dedupLoop l acc).map Prod.snd
        = acc.map Prod.snd
          ++ firstSeenDedup
              (l.filter (fun r => !(acc.any (fun kv => kv.1 == invoice_id r)))) := by
  intro l
  induction l with
  | nil =>
    intro acc
    simp [dedupLoop, firstSeenDedup]
  | cons r rest ih =>
    intro acc
    by_cases hmem : acc.any (fun kv => kv.1 == invoice_id r)
    · simp only [dedupLoop, if_pos hmem]
      rw [ih]
      congr 2
      rw [List.filter_cons]
      simp [hmem]
    · simp only [dedupLoop, if_neg hmem]
      rw [ih]
      have hfl : (r :: rest).filter (fun s => !(acc.any (fun kv => kv.1 == invoice_id s)))
          = r :: rest.filter (fun s => !(acc.any (fun kv => kv.1 == invoice_id s))) := by
        rw [List.filter_cons]
        simp [hmem]
      rw [hfl, firstSeenDedup]
      have hfl2 :
          rest.filter
              (fun s => !((acc ++ [(invoice_id r, r)]).any (fun kv => kv.1 == invoice_id s)))
            = (rest.filter (fun s => !(acc.any (fun kv => kv.1 == invoice_id s)))).filter
                (fun s => !(invoice_id s == invoice_id r)) := by
        rw [List.filter_filter]
        apply List.filter_congr
        intro s _
        simp only [List.any_append, List.any_cons, List.any_nil, Bool.or_false, Bool.not_or]
        by_cases h1 : acc.any (fun kv => kv.1 == invoice_id s)
        · simp [h1]
        · simp only [h1, Bool.not_false, Bool.true_and, Bool.and_true]
          by_cases h2 : invoice_id r = invoice_id s
          · simp [h2]
          · have h2a : (invoice_id r == invoice_id s) = false := by
              simpa using h2
            have h2b : (invoice_id s == invoice_id r) = false := by
              simpa using fun hr => h2 hr.symm
            simp [h2a, h2b]
      rw [hfl2]
      simp

theorem dedupInvoices_eq_firstSeenDedup (l : List InvRecord) :
    dedupInvoices l = firstSeenDedup l := by
  have h := dedupLoop_characterization l []
  simpa [dedupInvoices] using h

theorem firstSeenDedup_filter_comm (P : InvRecord → Bool)
    (hP : ∀ s t, invoice_id s = invoice_id t → P s = P t) :
    ∀ (n : Nat) (l : List InvRecord), l.length ≤ n →
      firstSeenDedup (l.filter P) = (firstSeenDedup l).filter P := by
  intro n
  induction n with
  | zero =>
    intro l hl
    have hnil : l = [] := List.eq_nil_of_length_eq_zero (Nat.le_zero.1 hl)
    subst hnil
    simp [firstSeenDedup]
  | succ n ih =>
    intro l hl
    cases l with
    | nil => simp [firstSeenDedup]
    | cons r rest =>
      have hrest : rest.length ≤ n := by
        simp only [List.length_cons] at hl
        omega
      have hlen2 : (rest.filter (fun s => !(invoice_id s == invoice_id r))).length ≤ n :=
        Nat.le_trans (List.length_filter_le _ _) hrest
      by_cases hq : P r
      · have h1 : (r :: rest).filter P = r :: rest.filter P := by
          rw [List.filter_cons]
          simp [hq]
        rw [h1]
        simp only [firstSeenDedup]
        have h2 :
            (r :: firstSeenDedup
                (rest.filter (fun s => !(invoice_id s == invoice_id r)))).filter P
            = r :: (firstSeenDedup
                (rest.filter (fun s => !(invoice_id s == invoice_id r)))).filter P := by
          rw [List.filter_cons]
          simp [hq]
        rw [h2, ← ih _ hlen2, List.filter_filter, List.filter_filter]
        have hfe :
            rest.filter (fun a => !(invoice_id a == invoice_id r) && P a)
              = rest.filter (fun a => P a && !(invoice_id a == invoice_id r)) := by
          apply List.filter_congr
          intro s _
          exact Bool.and_comm _ _
        rw [hfe]
      · have h1 : (r :: rest).filter P = rest.filter P := by
          rw [List.filter_cons]
          simp [hq]
        rw [h1]
        simp only [firstSeenDedup]
        have h2 :
            (r :: firstSeenDedup
                (rest.filter (fun s => !(invoice_id s == invoice_id r)))).filter P
            = (firstSeenDedup
                (rest.filter (fun s => !(invoice_id s == invoice_id r)))).filter P := by
          rw [List.filter_cons]
          simp [hq]
        rw [h2, ← ih _ hlen2, List.filter_filter]
        have hfe :
            rest.filter P
              = rest.filter (fun a => P a && !(invoice_id a == invoice_id r)) := by
          apply List.filter_congr
          intro s _
          by_cases hid : invoice_id s = invoice_id r
          · have hqs : P s = false := by
              rw [hP s r hid]
              simpa using hq
            simp [hqs]
          · have hne : (invoice_id s == invoice_id r) = false := by
              simpa using hid
            simp [hne]
        rw [hfe]

theorem firstSeenDedup_idem :
    ∀ (n : Nat) (l : List InvRecord), l.length ≤ n →
      firstSeenDedup (firstSeenDedup l) = firstSeenDedup l := by
  intro n
  induction n with
  | zero =>
    intro l hl
    have hnil : l = [] := List.eq_nil_of_length_eq_zero (Nat.le_zero.1 hl)
    subst hnil
    simp [firstSeenDedup]
  | succ n ih =>
    intro l hl
    cases l with
    | nil => simp [firstSeenDedup]
    | cons r rest =>
      have hrest : rest.length ≤ n := by
        simp only [List.length_cons] at hl
        omega
      have hlen2 : (rest.filter (fun s => !(invoice_id s == invoice_id r))).length ≤ n :=
        Nat.le_trans (List.length_filter_le _ _) hrest
      simp only [firstSeenDedup]
      congr 1
      have hcomm := firstSeenDedup_filter_comm (fun s => !(invoice_id s == invoice_id r))
        (fun s t hst => by simp only [hst]) n _ hlen2
      rw [← hcomm]
      have hXX : (rest.filter (fun s => !(invoice_id s == invoice_id r))).filter
            (fun s => !(invoice_id s == invoice_id r))
          = rest.filter (fun s => !(invoice_id s == invoice_id r)) := by
        rw [List.filter_filter]
        apply List.filter_congr
        intro s _
        exact Bool.and_self _
      rw [hXX]
      exact ih _ hlen2

theorem firstSeenDedup_sublist :
    ∀ (n : Nat) (l : List InvRecord), l.length ≤ n → (firstSeenDedup l).Sublist l := by
  intro n
  induction n with
  | zero =>
    intro l hl
    have hnil : l = [] := List.eq_nil_of_length_eq_zero (Nat.le_zero.1 hl)
    subst hnil
    simp [firstSeenDedup]
  | succ n ih =>
    intro l hl
    cases l with
    | nil => simp [firstSeenDedup]
    | cons r rest =>
      have hrest : rest.length ≤ n := by
        simp only [List.length_cons] at hl
        omega
      have hlen2 : (rest.filter (fun s => !(invoice_id s == invoice_id r))).length ≤ n :=
        Nat.le_trans (List.length_filter_le _ _) hrest
      simp only [firstSeenDedup]
      exact List.Sublist.cons₂ _ ((ih _ hlen2).trans (List.filter_sublist _))

theorem firstSeenDedup_nodup :
    ∀ (n : Nat) (l : List InvRecord), l.length ≤ n →
      ((firstSeenDedup l).map invoice_id).Nodup := by
  intro n
  induction n with
  | zero =>
    intro l hl
    have hnil : l = [] := List.eq_nil_of_length_eq_zero (Nat.le_zero.1 hl)
    subst hnil
    simp [firstSeenDedup]
  | succ n ih =>
    intro l hl
    cases l with
    | nil => simp [firstSeenDedup]
    | cons r rest =>
      have hrest : rest.length ≤ n := by
        simp only [List.length_cons] at hl
        omega
      have hlen2 : (rest.filter (fun s => !(invoice_id s == invoice_id r))).length ≤ n :=
        Nat.le_trans (List.length_filter_le _ _) hrest
      simp only [firstSeenDedup, List.map_cons]
      rw [List.nodup_cons]
      constructor
      · intro hmem
        obtain ⟨s, hs, hid⟩ := List.mem_map.1 hmem
        have hsub := firstSeenDedup_sublist
          ((rest.filter (fun x => !(invoice_id x == invoice_id r))).length) _ (Nat.le_refl _)
        have hsX : s ∈ rest.filter (fun x => !(invoice_id x == invoice_id r)) :=
          hsub.subset hs
        have hpred := (List.mem_filter.1 hsX).2
        simp [hid] at hpred
      · exact ih _ hlen2

theorem dedupInvoices_sublist (l : List InvRecord) : (dedupInvoices l).Sublist l := by
  rw [dedupInvoices_eq_firstSeenDedup]
  exact firstSeenDedup_sublist l.length l (Nat.le_refl _)

theorem mem_dedupInvoices (l : List InvRecord) : ∀ r ∈ dedupInvoices l, r ∈ l :=
  fun r hr => (dedupInvoices_sublist l).subset hr

theorem extract_chunk_non200 (complete : List Char → ApiResponse)
    (parseJsonArray : List Char → Option (List InvRecord)) (text_chunk : List Char)
    (h : (complete text_chunk).status_code ≠ 200) :
    extract_invoice_data_from_chunk complete parseJsonArray text_chunk = [] := by
  have hb : ((complete text_chunk).status_code == 200) = false := by
    simpa using h
  simp [extract_invoice_data_from_chunk, hb]

theorem flatten_map_eq_nil {α β : Type _} (f : α → List β) :
    ∀ (l : List α), (∀ c ∈ l, f c = []) → (l.map f).flatten = [] := by
  intro l
  induction l with
  | nil => intro _; simp
  | cons c cs ih =>
    intro h
    simp only [List.map_cons, List.flatten_cons]
    rw [h c (List.mem_cons_self _ _), ih (fun x hx => h x (List.mem_cons_of_mem _ hx))]
    rfl

theorem extractTextGo_decomp :
    ∀ (ts : List (List Char)) (j i : Nat) (h : i < ts.length),
      ∃ pre post, extractTextGo ts j
        = pre ++ pageHeaderLine (j + i + 1) ++ ts.get ⟨i, h⟩ ++ "\n\n".toList ++ post := by
  intro ts
  induction ts with
  | nil =>
    intro j i h
    simp at h
  | cons t rest ih =>
    intro j i h
    cases i with
    | zero =>
      refine ⟨[], extractTextGo rest (j + 1), ?_⟩
      simp [extractTextGo, List.append_assoc]
    | succ i =>
      have hi : i < rest.length := by simpa using Nat.lt_of_succ_lt_succ h
      obtain ⟨pre, post, hpp⟩ := ih (j + 1) i hi
      refine ⟨pageHeaderLine (j + 1) ++ t ++ "\n\n".toList ++ pre, post, ?_⟩
      have harith : j + 1 + i + 1 = j + (i + 1) + 1 := by omega
      rw [harith] at hpp
      simp only [extractTextGo, hpp, List.get, List.append_assoc]

/-- C1: for every page-delimited input text, `split_text_into_chunks` places
every non-empty (non-whitespace-only) page block into exactly one chunk, in
page order, with no page split across chunks: the instrumented chunker
projects back onto the real one, the concatenation of the chunks' underlying
page groups is exactly the filtered page sequence (each page once, in
order), and every page of a chunk's group occurs contiguously inside that
chunk's text. -/
theorem C1_chunking_partition (text : List Char) (max_tokens : Nat) :
    (splitChunksWithPages text max_tokens).map Prod.fst
        = split_text_into_chunks text max_tokens ∧
    ((splitChunksWithPages text max_tokens).map Prod.snd).flatten = pagesOf text ∧
    ∀ cg ∈ splitChunksWithPages text max_tokens, ∀ p ∈ cg.2, p <:+: cg.1 := by
  refine ⟨chunkLoopP_fst _ _ _ _, ?_, ?_⟩
  · exact chunkLoopP_flatten (max_tokens * 4) (pagesOf text) [] []
      (pagesOf_ne_nil text) (fun _ => rfl)
  · exact chunkLoopP_infix _ _ _ _ (by simp)

/-- C1 witness: on the concrete one-page document the unique chunk carries
the page block, and the block is an infix of the chunk text. -/
theorem C1_chunking_partition_witness :
    ((splitChunksWithPages exDocA 100000).map Prod.snd).flatten = pagesOf exDocA ∧
    ((pageMarker ++ exBlockA, [exBlockA]) ∈ splitChunksWithPages exDocA 100000) ∧
    exBlockA <:+: pageMarker ++ exBlockA :=
  ⟨(C1_chunking_partition exDocA 100000).2.1, by decide,
    (C1_chunking_partition exDocA 100000).2.2 (pageMarker ++ exBlockA, [exBlockA])
      (by decide) exBlockA (by decide)⟩

/-- C2: `split_text_into_chunks` uses the advisory budget
`max_chars = max_tokens * 4`: it packs greedily (every page group extension
satisfied the length test at the time it happened), every chunk break is
justified by an overflow of that test and the new chunk begins with the
overflowing page, a single page longer than `max_chars` always ends up as
the sole page of its own chunk, and the function totally returns at most
one chunk more than there are pages — the budget is never an error. -/
theorem C2_chunking_budget (text : List Char) (max_tokens : Nat) :
    split_text_into_chunks text max_tokens
        = chunkLoop (max_tokens * 4) (pagesOf text) [] ∧
    (∀ p ∈ pagesOf text, max_tokens * 4 < p.length →
        (p, [p]) ∈ splitChunksWithPages text max_tokens) ∧
    boundaryOk (max_tokens * 4) (splitChunksWithPages text max_tokens) ∧
    packedOutput (max_tokens * 4) 0 [] (splitChunksWithPages text max_tokens) ∧
    (split_text_into_chunks text max_tokens).length ≤ (pagesOf text).length + 1 := by
  refine ⟨rfl, ?_, ?_, ?_, ?_⟩
  · intro p hp hbig
    exact chunkLoopP_oversized _ _ _ _ p hp hbig
  · exact chunkLoopP_boundary _ _ _ _
  · exact chunkLoopP_packed _ _ _ _
  · exact chunkLoop_length_le _ _ _

/-- C2 witness: with a zero budget, the 4-character page block of the
concrete document overflows on its own and becomes its own chunk. -/
theorem C2_chunking_budget_witness :
    (exBlockA ∈ pagesOf exDocA) ∧ 0 * 4 < exBlockA.length ∧
    (exBlockA, [exBlockA]) ∈ splitChunksWithPages exDocA 0 :=
  ⟨by decide, by decide,
    (C2_chunking_budget exDocA 0).2.1 exBlockA (by decide) (by decide)⟩

/-- C3 counterexample: a two-page document in which each page's marked text
(with either the 18-character input header or the 18-character chunk joiner)
exceeds the 40-character budget of `max_tokens = 10`, yet
`split_text_into_chunks` returns three chunks — a leading empty chunk, then
one page per chunk — so page 1's text is not in chunk 0. -/
theorem C3_two_page_claim_counterexample :
    pagesOf twoBigPagesDoc = [aRun, bRun] ∧
    40 < pageMarker.length + aRun.length ∧
    40 < pageMarker.length + bRun.length ∧
    40 < (markerPre ++ ('1' :: []) ++ markerPost ++ aRun).length ∧
    40 < (markerPre ++ ('2' :: []) ++ markerPost ++ bRun).length ∧
    split_text_into_chunks twoBigPagesDoc 10 = [[], aRun, bRun] ∧
    ¬ (split_text_into_chunks twoBigPagesDoc 10).length = 2 := by
  decide

/-- C3 amended: for `max_tokens = 10` and any two-page document in which
each page's marked text exceeds the 40-character budget and, additionally,
page 1's bare block text fits within 40 characters, `split_text_into_chunks`
returns exactly two chunks, page 1's text in chunk 0 and page 2's text as
chunk 1. -/
theorem C3_two_page_budget_amended (text p1 p2 : List Char)
    (hpages : pagesOf text = [p1, p2])
    (h1 : 40 < pageMarker.length + p1.length)
    (h2 : 40 < pageMarker.length + p2.length)
    (hfit : p1.length ≤ 40) :
    split_text_into_chunks text 10 = [pageMarker ++ p1, p2] := by
  have hm : pageMarker.length = 18 := by decide
  rw [hm] at h1 h2
  simp only [split_text_into_chunks, hpages]
  have c1 : ¬ (10 * 4 < ([] : List Char).length + p1.length) := by
    simp only [List.length_nil, Nat.zero_add]
    omega
  have c2 : 10 * 4 < ([] ++ pageMarker ++ p1).length + p2.length := by
    simp only [List.nil_append, List.length_append, hm]
    omega
  simp only [chunkLoop, if_neg c1, if_pos c2]
  have hp2 : ¬ p2.isEmpty = true := by
    cases p2 with
    | nil => simp at h2
    | cons a l => simp
  rw [if_neg hp2]
  simp

theorem findIdx_none_of_not_mem (c : Char) :
    ∀ (s : List Char) (i : Nat), c ∉ s → s.findIdx? (fun x => x == c) i = none := by
  intro s
  induction s with
  | nil => intro i _; rfl
  | cons a as ih =>
    intro i h
    have ha : ¬ (a == c) = true := by
      simp only [beq_iff_eq]
      intro hac
      exact h (by rw [hac]; exact List.mem_cons_self _ _)
    simp only [List.findIdx?]
    rw [if_neg ha]
    exact ih (i + 1) (fun hm => h (List.mem_cons_of_mem _ hm))

theorem pyFind_of_not_mem (s : List Char) (c : Char) (h : c ∉ s) : pyFind s c = -1 := by
  simp [pyFind, findIdx_none_of_not_mem c s 0 h]

theorem pyRfind_of_not_mem (s : List Char) (c : Char) (h : c ∉ s) : pyRfind s c = -1 := by
  have hrev : c ∉ s.reverse := fun hm => h (List.mem_reverse.1 hm)
  simp [pyRfind, findIdx_none_of_not_mem c s.reverse 0 hrev]

/-- C3 amended witness: a concrete two-page document with 30-character page
bodies (48 characters once marked) yields exactly the two expected chunks. -/
theorem C3_two_page_budget_amended_witness :
    pagesOf twoMidPagesDoc = [aRun30, bRun30] ∧
    split_text_into_chunks twoMidPagesDoc 10 = [pageMarker ++ aRun30, bRun30] :=
  ⟨by decide,
    C3_two_page_budget_amended twoMidPagesDoc aRun30 bRun30
      (by decide) (by decide) (by decide) (by decide)⟩

/-- C4: for every chunk, `extract_invoice_data_from_chunk` returns the empty
sequence rather than raising in each of three independent scenarios: the
completion response status is not a 2xx success; or the response content
contains no opening or no closing square bracket; or the substring between
the first opening and last closing bracket fails to parse as JSON. -/
theorem C4_chunk_error_scenarios (complete : List Char → ApiResponse)
    (parseJsonArray : List Char → Option (List InvRecord)) (text_chunk : List Char) :
    (¬ (200 ≤ (complete text_chunk).status_code ∧ (complete text_chunk).status_code < 300) →
        extract_invoice_data_from_chunk complete parseJsonArray text_chunk = []) ∧
    (('[' ∉ (complete text_chunk).content ∨ ']' ∉ (complete text_chunk).content) →
        extract_invoice_data_from_chunk complete parseJsonArray text_chunk = []) ∧
    (parseJsonArray (jsonSlice (complete text_chunk).content) = none →
        extract_invoice_data_from_chunk complete parseJsonArray text_chunk = []) := by
  refine ⟨?_, ?_, ?_⟩
  · intro h
    apply extract_chunk_non200
    intro h200
    exact h (by rw [h200]; exact ⟨Nat.le_refl _, by omega⟩)
  · intro h
    by_cases hst : (complete text_chunk).status_code = 200
    · have h200 : ((complete text_chunk).status_code == 200) = true := by
        simp [hst]
      rcases h with h | h
      · have hf : pyFind (complete text_chunk).content '[' = -1 :=
          pyFind_of_not_mem _ _ h
        simp [extract_invoice_data_from_chunk, h200, hf]
      · have hf : pyRfind (complete text_chunk).content ']' = -1 :=
          pyRfind_of_not_mem _ _ h
        simp [extract_invoice_data_from_chunk, h200, hf]
    · exact extract_chunk_non200 _ _ _ hst
  · intro h
    by_cases hst : (complete text_chunk).status_code = 200
    · have h200 : ((complete text_chunk).status_code == 200) = true := by
        simp [hst]
      by_cases hse : (pyFind (complete text_chunk).content '[' == -1
          || (pyRfind (complete text_chunk).content ']' + 1) == 0) = true
      · simp [extract_invoice_data_from_chunk, h200, hse]
      · simp only [jsonSlice] at h
        simp [extract_invoice_data_from_chunk, h200, hse, h]
    · exact extract_chunk_non200 _ _ _ hst

/-- C4 witness: a 404 completion response yields the empty record list. -/
theorem C4_chunk_error_scenarios_witness :
    ¬ (200 ≤ (failComplete []).status_code ∧ (failComplete []).status_code < 300) ∧
    extract_invoice_data_from_chunk failComplete noParse [] = [] :=
  ⟨by decide, (C4_chunk_error_scenarios failComplete noParse []).1 (by decide)⟩

/-- C5: deduplication keeps the first-seen record unchanged and discards
every later record with the same identity, with no merging of fields:
the dedup loop equals the first-seen recursion, and two chunks that each
extract a record with the same identity yield exactly the first record. -/
theorem C5_dedup_first_wins :
    (∀ l : List InvRecord, dedupInvoices l = firstSeenDedup l) ∧
    (∀ r s : InvRecord, invoice_id s = invoice_id r →
        dedupInvoices (([r] : List InvRecord) ++ [s]) = [r]) := by
  refine ⟨dedupInvoices_eq_firstSeenDedup, ?_⟩
  intro r s hid
  rw [dedupInvoices_eq_firstSeenDedup]
  have hb : (invoice_id s == invoice_id r) = true := by
    simp [hid]
  simp [firstSeenDedup, List.filter_cons, hb]

/-- C5 witness: two records with equal identity but different fields
deduplicate to the first record alone. -/
theorem C5_dedup_first_wins_witness :
    invoice_id recB = invoice_id recA ∧
    dedupInvoices (([recA] : List InvRecord) ++ [recB]) = [recA] :=
  ⟨by decide, C5_dedup_first_wins.2 recA recB (by decide)⟩

theorem chunkE_agrees (completeE : List Char → Except TransportError ApiResponse)
    (complete : List Char → ApiResponse)
    (parseJsonArray : List Char → Option (List InvRecord))
    (hnoraise : ∀ c, completeE c = Except.ok (complete c)) (text_chunk : List Char) :
    extract_invoice_data_from_chunkE completeE parseJsonArray text_chunk
      = Except.ok (extract_invoice_data_from_chunk complete parseJsonArray text_chunk) := by
  simp only [extract_invoice_data_from_chunkE, extract_invoice_data_from_chunk,
    hnoraise text_chunk]
  by_cases h1 : ((complete text_chunk).status_code == 200) = true
  · rw [if_pos h1, if_pos h1]
    by_cases h2 : (pyFind (complete text_chunk).content '[' == -1
        || (pyRfind (complete text_chunk).content ']' + 1) == 0) = true
    · rw [if_pos h2, if_pos h2]
    · rw [if_neg h2, if_neg h2]
      cases parseJsonArray (pySlice (complete text_chunk).content
          (pyFind (complete text_chunk).content '[')
          (pyRfind (complete text_chunk).content ']' + 1)) with
      | none => rfl
      | some v => rfl
  · rw [if_neg h1, if_neg h1]

theorem processChunksE_agrees (completeE : List Char → Except TransportError ApiResponse)
    (complete : List Char → ApiResponse)
    (parseJsonArray : List Char → Option (List InvRecord))
    (hnoraise : ∀ c, completeE c = Except.ok (complete c)) :
    ∀ chunks : List (List Char),
      processChunksE completeE parseJsonArray chunks
        = Except.ok
            ((chunks.map (extract_invoice_data_from_chunk complete parseJsonArray)).flatten) := by
  intro chunks
  induction chunks with
  | nil => rfl
  | cons c cs ih =>
    simp only [processChunksE,
      chunkE_agrees completeE complete parseJsonArray hnoraise c, ih,
      List.map_cons, List.flatten_cons]

/-- C6 counterexample: with the transport failure mode modelled, a network
error raised by `requests.post` on one chunk aborts the run instead of
degrading that chunk's contribution: `goodChunk` alone extracts the record
`recA`, yet the chunk loop over `goodChunk` then `badChunk` ends in the
raised error, discarding the record already extracted from the earlier
chunk, and the whole pipeline likewise ends in the raised error on a
document whose single chunk's transport raises. -/
theorem C6_network_error_aborts_counterexample :
    extract_invoice_data_from_chunkE mixedComplete oneRecParse goodChunk
        = Except.ok [recA] ∧
    extract_invoice_data_from_chunkE mixedComplete oneRecParse badChunk
        = Except.error netErr ∧
    processChunksE mixedComplete oneRecParse [goodChunk, badChunk]
        = Except.error netErr ∧
    extract_invoice_dataE raiseComplete oneRecParse onePageA
        = Except.error netErr :=
  ⟨rfl, rfl, rfl, rfl⟩

/-- C6 amended: the pipeline absorbs every per-chunk failure that arrives
as a completion response: when the transport never raises, a non-2xx
response on every chunk past a prefix degrades those chunks' contributions
to empty sequences and never aborts the run — the pipeline returns (rather
than raises) the dedup of the prefix chunks' records alone, and every
returned record was extracted from an earlier successful chunk.  (A
transport-level network error, by contrast, raises uncaught and aborts the
run, as the counterexample shows.) -/
theorem C6_response_failures_absorbed
    (completeE : List Char → Except TransportError ApiResponse)
    (complete : List Char → ApiResponse)
    (parseJsonArray : List Char → Option (List InvRecord))
    (pageTexts : List (List Char)) (pre post : List (List Char))
    (hnoraise : ∀ c, completeE c = Except.ok (complete c))
    (hsplit : split_text_into_chunks (extract_text_from_pdf pageTexts) 100000 = pre ++ post)
    (hfail : ∀ c ∈ post,
        ¬ (200 ≤ (complete c).status_code ∧ (complete c).status_code < 300)) :
    extract_invoice_dataE completeE parseJsonArray pageTexts
        = Except.ok (dedupInvoices
            ((pre.map (extract_invoice_data_from_chunk complete parseJsonArray)).flatten)) ∧
    extract_invoice_data complete parseJsonArray pageTexts
        = dedupInvoices
            ((pre.map (extract_invoice_data_from_chunk complete parseJsonArray)).flatten) ∧
    ∀ r ∈ extract_invoice_data complete parseJsonArray pageTexts,
        r ∈ (pre.map (extract_invoice_data_from_chunk complete parseJsonArray)).flatten := by
  have hpost : ∀ c ∈ post, extract_invoice_data_from_chunk complete parseJsonArray c = [] := by
    intro c hc
    apply extract_chunk_non200
    intro h200
    exact hfail c hc (by rw [h200]; exact ⟨Nat.le_refl _, by omega⟩)
  have hflat :
      ((split_text_into_chunks (extract_text_from_pdf pageTexts) 100000).map
          (extract_invoice_data_from_chunk complete parseJsonArray)).flatten
        = (pre.map (extract_invoice_data_from_chunk complete parseJsonArray)).flatten := by
    rw [hsplit, List.map_append, List.flatten_append,
        flatten_map_eq_nil _ post hpost, List.append_nil]
  have hmain : extract_invoice_data complete parseJsonArray pageTexts
      = dedupInvoices
          ((pre.map (extract_invoice_data_from_chunk complete parseJsonArray)).flatten) := by
    simp only [extract_invoice_data]
    rw [hflat]
  refine ⟨?_, hmain, fun r hr => mem_dedupInvoices _ r (hmain ▸ hr)⟩
  simp only [extract_invoice_dataE,
    processChunksE_agrees completeE complete parseJsonArray hnoraise, hflat]

/-- C6 amended witness: a transport that always returns HTTP 500 responses
(never raising) on the single chunk of a one-page document makes the
pipeline return the dedup of no records — it does not abort. -/
theorem C6_response_failures_absorbed_witness :
    split_text_into_chunks (extract_text_from_pdf onePageA) 100000
        = [] ++ [pageMarker ++ exBlockA] ∧
    (∀ c ∈ [pageMarker ++ exBlockA],
        ¬ (200 ≤ (errComplete c).status_code ∧ (errComplete c).status_code < 300)) ∧
    extract_invoice_dataE errCompleteE noParse onePageA
        = Except.ok (dedupInvoices
            ((([] : List (List Char)).map
              (extract_invoice_data_from_chunk errComplete noParse)).flatten)) :=
  ⟨by decide, by decide,
    (C6_response_failures_absorbed errCompleteE errComplete noParse onePageA []
      [pageMarker ++ exBlockA] (fun _ => rfl) (by decide) (by decide)).1⟩

/-- C7: text extraction renders every page, never null: for each page index
the output decomposes as earlier pages, then this page's numbered marker,
then this page's (possibly empty) text and blank-line terminator, then the
remaining pages — so a page whose render came back empty still contributes
its marker and extraction continues past it. -/
theorem C7_page_text_never_null (pageTexts : List (List Char)) (i : Nat)
    (h : i < pageTexts.length) :
    ∃ pre post, extract_text_from_pdf pageTexts
      = pre ++ pageHeaderLine (i + 1) ++ pageTexts.get ⟨i, h⟩ ++ "\n\n".toList ++ post := by
  have hd := extractTextGo_decomp pageTexts 0 i h
  simpa [extract_text_from_pdf] using hd

/-- C7 witness: in a two-page document whose first page rendered empty, the
page-1 marker is still emitted around the empty text and page 2 follows. -/
theorem C7_page_text_never_null_witness :
    (0 : Nat) < twoPageEmptyFirst.length ∧
    ∃ pre post, extract_text_from_pdf twoPageEmptyFirst
      = pre ++ pageHeaderLine 1 ++ ([] : List Char) ++ "\n\n".toList ++ post :=
  ⟨by decide, C7_page_text_never_null twoPageEmptyFirst 0 (by decide)⟩

/-- C8: running deduplication twice is idempotent: applying the dedup step
to its own output returns the same records in the same order. -/
theorem C8_dedup_idempotent (l : List InvRecord) :
    dedupInvoices (dedupInvoices l) = dedupInvoices l := by
  rw [dedupInvoices_eq_firstSeenDedup l,
      dedupInvoices_eq_firstSeenDedup (firstSeenDedup l)]
  exact firstSeenDedup_idem l.length l (Nat.le_refl _)

/-- C9: the pipeline is a pure function of its input and its deterministic
render and completion capabilities — its output is exactly the dedup of the
chunk-ordered concatenation of per-chunk record lists, and the output is an
order-preserving subsequence of that chunk-then-within-chunk sequence. -/
theorem C9_pipeline_deterministic_order (complete : List Char → ApiResponse)
    (parseJsonArray : List Char → Option (List InvRecord))
    (pageTexts : List (List Char)) :
    extract_invoice_data complete parseJsonArray pageTexts
        = dedupInvoices
            (((split_text_into_chunks (extract_text_from_pdf pageTexts) 100000).map
              (extract_invoice_data_from_chunk complete parseJsonArray)).flatten) ∧
    (extract_invoice_data complete parseJsonArray pageTexts).Sublist
        (((split_text_into_chunks (extract_text_from_pdf pageTexts) 100000).map
          (extract_invoice_data_from_chunk complete parseJsonArray)).flatten) :=
  ⟨rfl, dedupInvoices_sublist _⟩

/-- C10: the dedup identity is the formatted string vendor-dash-invoice
with missing fields defaulting to empty: records whose formatted keys
coincide are duplicates even when their field pairs differ (vendor `A-1`
with invoice `2` collides with vendor `A` with invoice `1-2`), a record
missing both fields gets the key `-`, and the dedup output never contains
two records with the same key, so at most one keyless record survives. -/
theorem C10_dash_key_collisions :
    (invoice_id recX = invoice_id recY ∧
      pyGet recX vendorNameKey emptyStr ≠ pyGet recY vendorNameKey emptyStr ∧
      dedupInvoices (([recX] : List InvRecord) ++ [recY]) = [recX]) ∧
    (∀ r : InvRecord, r.find? (fun kv => kv.1 == vendorNameKey) = none →
        r.find? (fun kv => kv.1 == invoiceNumberKey) = none →
        invoice_id r = dashStr) ∧
    (∀ l : List InvRecord, ((dedupInvoices l).map invoice_id).Nodup) := by
  refine ⟨⟨by decide, by decide, ?_⟩, ?_, ?_⟩
  · rw [dedupInvoices_eq_firstSeenDedup]
    have hb : (invoice_id recY == invoice_id recX) = true := by decide
    simp [firstSeenDedup, List.filter_cons, hb]
  · intro r h1 h2
    simp only [invoice_id, pyGet, h1, h2]
    decide
  · intro l
    rw [dedupInvoices_eq_firstSeenDedup]
    exact firstSeenDedup_nodup l.length l (Nat.le_refl _)

/-- C10 witness: a record with neither vendor name nor invoice number gets
the bare dash as its dedup key. -/
theorem C10_dash_key_collisions_witness :
    recNoKeys.find? (fun kv => kv.1 == vendorNameKey) = none ∧
    recNoKeys.find? (fun kv => kv.1 == invoiceNumberKey) = none ∧
    invoice_id recNoKeys = dashStr :=
  ⟨by decide, by decide,
    C10_dash_key_collisions.2.1 recNoKeys (by decide) (by decide)⟩

end InvoiceExtractor
